import Mathlib

/-!
Verification development for the atlas distributed in-memory cache.

The development shallowly embeds the Rust sources:
  * src/core/src/cache.rs      — `LruCache` (ConcurrentHashMap + doubly linked list)
  * src/server/src/commands.rs — `parse_input` and `Command::handle`
  * src/core/src/cluster_client.rs — `ClusterClient` (murmur3-based shard routing)

Pointer-based state (`Arc<RwLock<Node>>`) is embedded as an explicit heap of
nodes addressed by allocation ids; `Option` results model Rust panics
(`unwrap` on `None`, `parse().unwrap()` failures, division by zero) with
`none`.  Machine integers are embedded as `Nat` with explicit reduction
modulo `2 ^ 64` (usize, only where wrap-around can occur) and `2 ^ 32`
(the 32-bit murmur3 hash).
-/

set_option autoImplicit false

namespace Atlas

/-! ### Association-list maps

`std::collections::HashMap` (inside `ConcurrentHashMap`) and `DashMap`
are embedded as association lists with overwrite-on-insert semantics.
The lock striping of `ConcurrentHashMap` only distributes entries over 16
buckets; for the sequential semantics of lookup/insert/remove the flat
association list is an exact model. -/

variable {K V : Type} [DecidableEq K]

/-- Lookup, mirroring `HashMap::get` / `DashMap::get`. -/
def hmGet : List (K × V) → K → Option V
  | [], _ => none
  | (k', v) :: t, k => if k' = k then some v else hmGet t k

/-- Insert with overwrite, mirroring `HashMap::insert` / `DashMap::insert`. -/
def hmInsert : List (K × V) → K → V → List (K × V)
  | [], k, v => [(k, v)]
  | (k', v') :: t, k, v => if k' = k then (k, v) :: t else (k', v') :: hmInsert t k v

/-- Removal, mirroring `HashMap::remove` / `DashMap::remove`. -/
def hmRemove : List (K × V) → K → List (K × V)
  | [], _ => []
  | (k', v') :: t, k => if k' = k then t else (k', v') :: hmRemove t k

/-- Key-membership test, mirroring `HashMap::contains_key`. -/
def hmContains (m : List (K × V)) (k : K) : Bool :=
  (hmGet m k).isSome

theorem hmGet_hmInsert_self (m : List (K × V)) (k : K) (v : V) :
    hmGet (hmInsert m k v) k = some v := by
  induction m with
  | nil => simp [hmInsert, hmGet]
  | cons p t ih =>
    obtain ⟨k', v'⟩ := p
    by_cases h : k' = k <;> simp [hmInsert, hmGet, h, ih]

/-! ### The command protocol (src/server/src/commands.rs) -/

/-- The `Command` enum of src/server/src/commands.rs.  `Bytes` payloads are
embedded as `String` (the parser builds them from whitespace-free input
tokens), `usize` flags and `u128` exptimes as `Nat`. -/
inductive Command where
  | Set (key : String) (flags : Nat) (exptime : Nat) (data : String)
  | Add (key : String) (data : String)
  | Replace (key : String) (data : String)
  | Append (key : String) (data : String)
  | Prepend (key : String) (data : String)
  | Get (key : String)
  | Gets (key : String)
  | Delete (key : String)
  | Incr (key : String)
  | Decr (key : String)
  | Cas (key : String) (data : String)
  | Stats
  | Version
  | Flushall
  | Invalid
  deriving DecidableEq

/-- `str::trim` on the character list of the input: drop whitespace from
both ends. -/
def rustTrim (cs : List Char) : List Char :=
  ((cs.dropWhile Char.isWhitespace).reverse.dropWhile Char.isWhitespace).reverse

/-- `str::split(sep)` on a character list: splits at every occurrence of
`sep`, keeping empty fields, and yields one (possibly empty) field even
for empty input — exactly the iterator semantics of Rust `split(' ')`. -/
def splitChar (sep : Char) : List Char → List (List Char)
  | [] => [[]]
  | c :: rest =>
    match splitChar sep rest with
    | [] => [[c]]
    | t :: ts => if c = sep then [] :: t :: ts else (c :: t) :: ts

/-- The all-digit happy path of `str::parse::<usize>` / `::<u128>`:
`none` is the `Err` that `unwrap` turns into a panic.  (The embedding
omits the `+`-prefixed and usize-overflow edge cases of Rust's integer
parsing, which no theorem below touches.) -/
def parseRustNat (cs : List Char) : Option Nat :=
  match cs with
  | [] => none
  | _ => parseDigits cs 0
where
  parseDigits : List Char → Nat → Option Nat
    | [], acc => some acc
    | c :: t, acc =>
      if c.isDigit then parseDigits t (acc * 10 + (c.toNat - 48)) else none

/-- Embedding of `parse_input` (src/server/src/commands.rs lines 6-38).
`input.trim().split(' ')` is `rustTrim`/`splitChar ' '` on the input's
characters; the match on `input_array[0]` and the arity checks follow the
source, and the two `parse().unwrap()` calls on the flags and exptime
tokens of a 5-token `set` line panic (`none`) on non-numeric input. -/
def parse_input (input : String) : Option Command :=
  match splitChar ' ' (rustTrim input.data) with
  | [] => some Command.Invalid
  | verb :: rest =>
    if verb = "set".data then
      match rest with
      | [k, f, e, v] =>
        match parseRustNat f, parseRustNat e with
        | some fn, some en => some (Command.Set (String.mk k) fn en (String.mk v))
        | _, _ => none
      | _ => some Command.Invalid
    else if verb = "get".data then
      match rest with
      | [k] => some (Command.Get (String.mk k))
      | _ => some Command.Invalid
    else if verb = "delete".data then
      match rest with
      | [k] => some (Command.Delete (String.mk k))
      | _ => some Command.Invalid
    else if verb = "version".data then
      match rest with
      | [] => some Command.Version
      | _ => some Command.Invalid
    else some Command.Invalid

/-! ### The LRU cache (src/core/src/cache.rs)

`Node<K, V>` values live behind `Arc<RwLock<..>>` pointers; the embedding
gives every allocated node a stable id (`fresh` counts allocations) and
stores the nodes in a heap, with `prev`/`next`/`head`/`tail` holding node
ids instead of pointers.  Rust panics (`unwrap` on a `None` tail,
`Arc::try_unwrap` failure in `remove`) are embedded as `none` results. -/

/-- The `Node` struct of src/core/src/cache.rs: key, value and the two
chain links (node ids standing for the `Option<Arc<RwLock<Node>>>`
pointers). -/
structure Node (K V : Type) where
  k : K
  v : V
  next : Option Nat
  prev : Option Nat
  deriving DecidableEq

/-- Heap lookup: dereferencing the `Arc` for node id `i`. -/
def heapGet {K V : Type} (ns : List (Nat × Node K V)) (i : Nat) : Option (Node K V) :=
  hmGet ns i

/-- Heap update: mutating the node behind id `i` through its `RwLock`. -/
def heapSet {K V : Type} (ns : List (Nat × Node K V)) (i : Nat)
    (f : Node K V → Node K V) : List (Nat × Node K V) :=
  ns.map (fun p => if p.1 = i then (p.1, f p.2) else p)

/-- The `LruCache` struct of src/core/src/cache.rs.  `m` is the
`ConcurrentHashMap` index from keys to node ids, `head`/`tail` the
`ConcurrentLL` chain endpoints, `th` the capacity threshold and `len` the
`AtomicUsize` entry counter.  `nodes`/`fresh` embed the `Arc` heap. -/
structure LruCache (K V : Type) where
  nodes : List (Nat × Node K V)
  fresh : Nat
  head : Option Nat
  tail : Option Nat
  m : List (K × Nat)
  th : Nat
  len : Nat

/-- `usize` wrap-around modulus for the `AtomicUsize` length counter. -/
def USIZE : Nat := 2 ^ 64

/-- `fetch_add(1, ..)` on the `AtomicUsize` counter. -/
def addWrap (n : Nat) : Nat := (n + 1) % USIZE

/-- `fetch_sub(1, ..)` on the `AtomicUsize` counter (wraps on underflow). -/
def subWrap (n : Nat) : Nat := (n + USIZE - 1) % USIZE

/-- `LruCache::new(th)` (src/core/src/cache.rs lines 109-116). -/
def LruCache.new (K V : Type) (th : Nat) : LruCache K V :=
  { nodes := [], fresh := 0, head := none, tail := none, m := [], th := th, len := 0 }

/-- Embedding of `LruCache::insert` (src/core/src/cache.rs lines 119-178):
allocate the new node; if the chain is empty set both endpoints to it;
otherwise, when `len == th`, evict the current head (advance `head` to its
next link, remove the head key from the index, decrement `len`) and then
link the new node after the current tail.  The tail `unwrap` panics
(`none` here) when the chain has a dangling head with no tail.  Finally
the index entry for `k` is overwritten and `len` incremented — the source
performs no already-present check for `k`. -/
def LruCache.insert {K V : Type} [DecidableEq K]
    (s : LruCache K V) (k : K) (v : V) : Option (LruCache K V) :=
  let nid := s.fresh
  let s0 : LruCache K V :=
    { s with nodes := s.nodes ++ [(nid, ⟨k, v, none, none⟩)], fresh := nid + 1 }
  match s0.head with
  | none =>
    some { s0 with head := some nid, tail := some nid,
                   m := hmInsert s0.m k nid, len := addWrap s0.len }
  | some hid =>
    let s1 : Option (LruCache K V) :=
      if s0.len = s0.th then
        match heapGet s0.nodes hid with
        | none => none
        | some hnode =>
          some { s0 with head := hnode.next,
                         m := hmRemove s0.m hnode.k,
                         len := subWrap s0.len }
      else some s0
    match s1 with
    | none => none
    | some s1 =>
      match s1.tail with
      | none => none
      | some tid =>
        let s2 := { s1 with nodes := heapSet s1.nodes tid (fun n => { n with next := some nid }) }
        let s3 := { s2 with nodes := heapSet s2.nodes nid (fun n => { n with prev := some tid }) }
        let s4 := { s3 with tail := some nid }
        some { s4 with m := hmInsert s4.m k nid, len := addWrap s4.len }

/-- Embedding of `LruCache::remove_internal` (src/core/src/cache.rs lines
200-249): when `k` is indexed, drop it from the index, decrement `len`,
and unlink the node, distinguishing the tail (`next` is `none`), head
(`prev` is `none`) and interior cases exactly as the source does; the
returned node id stands for the returned `Arc`.  Note that the tail case
leaves the node's own `prev` link set and the interior case leaves both of
the node's own links set, matching the source. -/
def LruCache.removeInternal {K V : Type} [DecidableEq K]
    (s : LruCache K V) (k : K) : Option (Option Nat × LruCache K V) :=
  if hmContains s.m k then
    match hmGet s.m k with
    | none => none
    | some nid =>
      let s0 : LruCache K V := { s with m := hmRemove s.m k, len := subWrap s.len }
      match heapGet s0.nodes nid with
      | none => none
      | some node =>
        if node.next = none then
          let s1 := { s0 with tail := node.prev }
          match node.prev with
          | some p =>
            some (some nid, { s1 with nodes := heapSet s1.nodes p (fun n => { n with next := none }) })
          | none => some (some nid, s1)
        else if node.prev = none then
          let s1 := { s0 with head := node.next }
          match s1.head with
          | none => none
          | some hid =>
            let s2 := { s1 with nodes := heapSet s1.nodes hid (fun n => { n with prev := none }) }
            some (some nid, { s2 with nodes := heapSet s2.nodes nid (fun n => { n with next := none }) })
        else
          match node.prev, node.next with
          | some p, some nx =>
            let s1 := { s0 with nodes := heapSet s0.nodes p (fun n => { n with next := node.next }) }
            some (some nid, { s1 with nodes := heapSet s1.nodes nx (fun n => { n with prev := node.prev }) })
          | _, _ => none
  else some (none, s)

/-- Embedding of `LruCache::get` (src/core/src/cache.rs lines 261-275):
when `k` is indexed, call `remove_internal` (which also deletes the index
entry and decrements `len`), re-attach the returned node after the current
tail (without touching the node's own links, the index, or `len`), and
return its value. -/
def LruCache.get {K V : Type} [DecidableEq K]
    (s : LruCache K V) (k : K) : Option (Option V × LruCache K V) :=
  if hmContains s.m k then
    match s.removeInternal k with
    | none => none
    | some (onid, s0) =>
      match onid with
      | none => some (none, s0)
      | some nid =>
        let s1 :=
          match s0.tail with
          | some t => { s0 with nodes := heapSet s0.nodes t (fun n => { n with next := some nid }) }
          | none => s0
        let s2 := { s1 with tail := some nid }
        match heapGet s2.nodes nid with
        | none => none
        | some node => some (some node.v, s2)
  else some (none, s)

/-- Number of references to node id `i` other than the local `Arc` held by
`remove`: the chain endpoints, the index entries, and the `prev`/`next`
fields of all live nodes.  `Arc::try_unwrap` succeeds exactly when this
count is zero. -/
def refCount {K V : Type} (s : LruCache K V) (i : Nat) : Nat :=
  (if s.head = some i then 1 else 0) +
  (if s.tail = some i then 1 else 0) +
  (s.m.filter (fun p => p.2 = i)).length +
  (s.nodes.filter (fun p => p.2.next = some i)).length +
  (s.nodes.filter (fun p => p.2.prev = some i)).length

/-- Embedding of `LruCache::remove` (src/core/src/cache.rs lines 180-197):
`remove_internal` followed by `Arc::try_unwrap`, which panics (`none`)
when any other reference to the node remains; on success the node is moved
out of the heap and its value returned. -/
def LruCache.remove {K V : Type} [DecidableEq K]
    (s : LruCache K V) (k : K) : Option (Option V × LruCache K V) :=
  match s.removeInternal k with
  | none => none
  | some (onid, s0) =>
    match onid with
    | none => some (none, s0)
    | some nid =>
      if refCount s0 nid = 0 then
        match heapGet s0.nodes nid with
        | none => none
        | some node => some (some node.v, { s0 with nodes := hmRemove s0.nodes nid })
      else none

/-- Walk the chain along `next` links from position `p`, with fuel to stay
total on the (reachable) cyclic chains the source can build.  The walk on
a well-formed chain with enough fuel lists every live node exactly once. -/
def walkNext {K V : Type} (s : LruCache K V) : Nat → Option Nat → List Nat
  | 0, _ => []
  | _ + 1, none => []
  | fuel + 1, some i =>
    match heapGet s.nodes i with
    | none => [i]
    | some n => i :: walkNext s fuel n.next

/-- The node ids reachable from `head`, with fuel one more than the number
of allocations (enough to re-visit a node when the chain is cyclic). -/
def chainFromHead {K V : Type} (s : LruCache K V) : List Nat :=
  walkNext s (s.nodes.length + 1) s.head

/-- The keys along the chain from `head`. -/
def chainKeys {K V : Type} (s : LruCache K V) : List (Option K) :=
  (chainFromHead s).map (fun i => (heapGet s.nodes i).map Node.k)

/-- The `next` link of the node currently at `tail` (`none` when `tail` is
unset or dangling). -/
def tailNext {K V : Type} (s : LruCache K V) : Option (Option Nat) :=
  match s.tail with
  | none => none
  | some t => (heapGet s.nodes t).map Node.next

/-- The server store: `DashMap<String, (u128, Bytes)>` mapping a key to its
absolute expiry time in milliseconds (0 = never expires) and its value. -/
def Store : Type := List (String × Nat × String)

/-- Modelled from the crate metadata: the compile-time constant
`env!("CARGO_PKG_VERSION")` returned by the `version` command. -/
def cargoPkgVersion : String := "0.1.0"

/-- Embedding of `Command::handle` (src/server/src/commands.rs lines 61-109).
The ambient clock `SystemTime::now().duration_since(UNIX_EPOCH).as_millis()`
is passed explicitly as `now`; the result is the reply together with the
updated store. -/
def Command.handle (c : Command) (map : Store) (now : Nat) : String × Store :=
  match c with
  | Command.Set key _flags exptime data =>
    let exptime := if exptime ≠ 0 then now + exptime else 0
    ("STORED", hmInsert map key (exptime, data))
  | Command.Get key =>
    match hmGet map key with
    | some v =>
      if v.1 ≠ 0 then
        if v.1 ≥ now then (v.2, map) else ("NOT FOUND", map)
      else (v.2, map)
    | none => ("NOT FOUND", map)
  | Command.Delete key =>
    match hmGet map key with
    | some _ => ("DELETED", hmRemove map key)
    | none => ("NOT FOUND", map)
  | Command.Version => (cargoPkgVersion, map)
  | _ => ("NOT IMPLEMENTED", map)

/-! ### The cluster client (src/core/src/cluster_client.rs)

`ClusterClient::get_stream` routes a key with `murmur3_32(key, 0) as usize
% self.cluster.len()` and indexes `self.streams` (a vector allocated with
exactly three `None` slots by `new`) at that position.  The murmur3 crate's
32-bit x86 hash is embedded below over the key's byte sequence; 32-bit
arithmetic is `Nat` reduced modulo `2 ^ 32`. -/

/-- 32-bit modulus for the murmur3 arithmetic. -/
def MOD32 : Nat := 2 ^ 32

/-- 32-bit left rotation. -/
def rotl32 (x r : Nat) : Nat :=
  ((x <<< r) % MOD32) ||| (x >>> (32 - r))

/-- One full 4-byte block step of murmur3_32. -/
def mm3Block (h k : Nat) : Nat :=
  let k := (k * 0xcc9e2d51) % MOD32
  let k := rotl32 k 15
  let k := (k * 0x1b873593) % MOD32
  let h := h ^^^ k
  let h := rotl32 h 13
  (h * 5 + 0xe6546b64) % MOD32

/-- The final 0-3 byte partial block of murmur3_32. -/
def mm3Tail (h : Nat) (tl : List Nat) : Nat :=
  match tl with
  | [] => h
  | bs =>
    let k :=
      match bs with
      | [b0] => b0
      | [b0, b1] => b0 ^^^ (b1 <<< 8)
      | [b0, b1, b2] => b0 ^^^ (b1 <<< 8) ^^^ (b2 <<< 16)
      | _ => 0
    let k := (k * 0xcc9e2d51) % MOD32
    let k := rotl32 k 15
    let k := (k * 0x1b873593) % MOD32
    h ^^^ k

/-- The block loop of murmur3_32: little-endian 4-byte words mixed in
order, then the partial tail. -/
def mm3Body (h : Nat) : List Nat → Nat
  | b0 :: b1 :: b2 :: b3 :: rest =>
    mm3Body (mm3Block h (b0 ^^^ (b1 <<< 8) ^^^ (b2 <<< 16) ^^^ (b3 <<< 24))) rest
  | tl => mm3Tail h tl

/-- The murmur3 finalization mix. -/
def fmix32 (h : Nat) : Nat :=
  let h := h ^^^ (h >>> 16)
  let h := (h * 0x85ebca6b) % MOD32
  let h := h ^^^ (h >>> 13)
  let h := (h * 0xc2b2ae35) % MOD32
  h ^^^ (h >>> 16)

/-- `murmur3::murmur3_32(&mut Cursor::new(key), seed)`: the 32-bit x86
murmur3 hash of the key's bytes. -/
def murmur3_32 (bytes : List Nat) (seed : Nat) : Nat :=
  fmix32 (mm3Body seed bytes ^^^ bytes.length)

/-- The `ClusterClient` struct of src/core/src/cluster_client.rs: the
lazily-opened per-shard connection slots (`Option Unit` standing for
`Option<TcpStream>`) and the configured shard list. -/
structure ClusterClient where
  streams : List (Option Unit)
  cluster : List (String × Nat)

/-- `ClusterClient::new` (src/core/src/cluster_client.rs lines 13-18):
`streams` is built as `vec![None, None, None]` — three slots regardless of
the length of the given cluster list. -/
def ClusterClient.new (cluster : List (String × Nat)) : ClusterClient :=
  { streams := [none, none, none], cluster := cluster }

/-- The shard-index computation of `ClusterClient::get_stream`
(src/core/src/cluster_client.rs lines 54-68):
`murmur3_32(key, 0) as usize % self.cluster.len()`, with the key given by
its byte sequence.  `none` is the division-by-zero panic on an empty
cluster list; `self.streams[server_index]` is then accessed at the
returned index. -/
def ClusterClient.get_stream_index (c : ClusterClient) (key : List Nat) : Option Nat :=
  if c.cluster.length = 0 then none
  else some (murmur3_32 key 0 % c.cluster.length)

/-! ### Helper lemmas -/

theorem gcd_bound_no_common_divisor {a b n : Nat} (hn : 3 < n) (hpos : 0 < a)
    (ha : n ∣ a) (hb : n ∣ b) (hg : Nat.gcd a b ≤ 3) : False := by
  have hd := Nat.dvd_gcd ha hb
  rcases Nat.eq_zero_or_pos (Nat.gcd a b) with h0 | hp
  · have := Nat.eq_zero_of_gcd_eq_zero_left h0
    omega
  · have := Nat.le_of_dvd hp hd
    omega

theorem get_stream_index_of_ne_zero (L : List (String × Nat)) (key : List Nat)
    (h : ¬ L.length = 0) :
    (ClusterClient.new L).get_stream_index key = some (murmur3_32 key 0 % L.length) := by
  simp only [ClusterClient.get_stream_index, ClusterClient.new]
  rw [if_neg h]

/-! ### Claim theorems -/

/-- Claim C1 states that inserting an already-present key replaces its
value, promotes the node and leaves `len` unchanged with no duplicate
node.  The source has no already-present check: evaluating two inserts of
key `1` into a fresh capacity-5 cache leaves two nodes for key `1` on the
chain (ids 0 and 1, both with key `1`), one index entry, and `len = 2`. -/
theorem insert_existing_key_appends_duplicate_node :
    (((LruCache.new Nat Nat 5).insert 1 10).bind (fun s => s.insert 1 20)).map
        (fun s => (chainKeys s, s.m.length, s.len))
      = some ([some 1, some 1], 1, 2) := by decide

/-- Claim C2 states that `len()`, the number of indexed keys, and the
number of live chain nodes always agree.  After `insert 1` followed by
`get 1` on a fresh capacity-5 cache, `len() = 0` and the index is empty
while one node is still reachable on the chain — `get` reuses
`remove_internal`, which deletes the index entry and decrements `len`. -/
theorem len_diverges_from_index_and_chain :
    (((LruCache.new Nat Nat 5).insert 1 10).bind (fun s => (s.get 1).map Prod.snd)).map
        (fun s => (s.len, s.m.length, (chainFromHead s).length))
      = some (0, 0, 1) := by decide

/-- Claim C3 states that after any insert `len() ≤ capacity` (including
capacity 0) and that a full-cache insert evicts the head only when the
inserted key is new.  The empty-chain branch of `insert` skips the
threshold check, so a capacity-0 cache ends with `len = 1`; and inserting
key `2` into a full capacity-2 cache already holding key `2` still evicts
the head entry for key `1`. -/
theorem capacity_bound_violated :
    (((LruCache.new Nat Nat 0).insert 1 1).map (fun s => (s.th, s.len))) = some (0, 1)
    ∧ (((LruCache.new Nat Nat 2).insert 1 1).bind (fun s =>
        (s.insert 2 2).bind (fun s => s.insert 2 3))).map
          (fun s => (hmContains s.m 1, s.len)) = some (false, 2) := by decide

/-- Claim C4 states that after every completed operation the chain is
well-formed (the next-walk from head visits each live node once and ends
at the tail, whose `next` is `none`) and that unlinking clears the node's
own links in all three positions.  After inserting keys `1,2,3` and
calling `get 2`, the promoted tail node still has `next = some 2`, so the
next-walk `[0, 2, 1, 2]` revisits node 2 and never reaches a `none` link;
and `remove_internal` on the interior node 1 leaves its own links as
`(some 0, some 2)` instead of clearing them. -/
theorem chain_malformed_after_promotion :
    (((LruCache.new Nat Nat 5).insert 1 1).bind (fun s => (s.insert 2 2).bind
        (fun s => (s.insert 3 3).bind (fun s => (s.get 2).map Prod.snd)))).map
        (fun s => (tailNext s, chainFromHead s))
      = some (some (some 2), [0, 2, 1, 2])
    ∧ (((LruCache.new Nat Nat 5).insert 1 1).bind (fun s => (s.insert 2 2).bind
        (fun s => (s.insert 3 3).bind (fun s => s.removeInternal 2)))).map
        (fun r => (heapGet r.2.nodes 1).map (fun n => (n.prev, n.next)))
      = some (some (some 0, some 2)) := by decide

/-- Claim C5 states that `get` of a present key returns the value and
merely promotes the node, leaving the key present.  Evaluating
`insert 1 10; get 1; get 1` on a fresh capacity-5 cache: the first `get`
returns `10` but leaves the index without key `1` and `len = 0`, and the
second `get` returns nothing although the key was never removed. -/
theorem get_drops_key_from_index :
    (((LruCache.new Nat Nat 5).insert 1 10).bind (fun s =>
      (s.get 1).bind (fun r1 =>
        (r1.2.get 1).map (fun r2 => (r1.1, hmContains r1.2.m 1, r1.2.len, r2.1)))))
      = some (some 10, false, 0, none) := by decide

/-- Claim C6 states that `parse_input` never panics on malformed input.
A 5-token `set` line with a non-numeric flags token hits
`parse().unwrap()` and panics (`none` in the embedding), while wrong
arities and unknown verbs do collapse to `Invalid` as claimed. -/
theorem parse_input_panics_on_non_numeric_set :
    parse_input "set k a 0 v" = none
    ∧ parse_input "get" = some Command.Invalid
    ∧ parse_input "blah x" = some Command.Invalid
    ∧ parse_input "set a b c" = some Command.Invalid := by decide

/-- Claim C7: handling `get` returns the stored value when the key is
present and not expired, returns NOT FOUND when it is present but
expired while leaving the entry in the store (lazy expiry), a `set` with
exptime 0 never expires at any later read time, and a `set` with
exptime `t > 0` is expired for every read after `now + t`. -/
theorem get_lazy_expiry_semantics :
    ∀ (st : Store) (k : String) (e : Nat) (d : String) (now : Nat),
      ((Command.Get k).handle st now).2 = st
    ∧ (hmGet st k = some (e, d) → e = 0 ∨ now ≤ e → ((Command.Get k).handle st now).1 = d)
    ∧ (hmGet st k = some (e, d) → e ≠ 0 → e < now →
        ((Command.Get k).handle st now).1 = "NOT FOUND")
    ∧ (∀ f v later, ((Command.Get k).handle ((Command.Set k f 0 v).handle st now).2 later).1 = v)
    ∧ (∀ f v t later, 0 < t → now + t < later →
        ((Command.Get k).handle ((Command.Set k f t v).handle st now).2 later).1 = "NOT FOUND") := by
  intro st k e d now
  refine ⟨?_, ?_, ?_, ?_, ?_⟩
  · cases h : hmGet st k with
    | none => simp [Command.handle, h]
    | some p => simp only [Command.handle, h]; split_ifs <;> rfl
  · intro hget hcond
    simp only [Command.handle, hget]
    rcases hcond with h | h
    · rw [if_neg (by omega)]
    · by_cases he : e = 0
      · rw [if_neg (by omega)]
      · rw [if_pos he, if_pos (by omega : e ≥ now)]
  · intro hget hne hlt
    simp only [Command.handle, hget]
    rw [if_pos hne, if_neg (by omega : ¬ e ≥ now)]
  · intro f v later
    simp [Command.handle, hmGet_hmInsert_self]
  · intro f v t later ht hlt
    have hne : t ≠ 0 := by omega
    simp only [Command.handle, if_pos hne, hmGet_hmInsert_self]
    rw [if_pos (by omega : now + t ≠ 0), if_neg (by omega : ¬ now + t ≥ later)]

/-- Witness for C7: a concrete store, entry and clock values hitting each
hypothesis of the expiry theorem. -/
theorem get_lazy_expiry_semantics_witness :
    ((Command.Get "x").handle [("x", (5, "val"))] 3).1 = "val"
    ∧ ((Command.Get "x").handle [("x", (5, "val"))] 9).1 = "NOT FOUND"
    ∧ ((Command.Get "x").handle ((Command.Set "x" 0 0 "v2").handle [] 3).2 100).1 = "v2"
    ∧ ((Command.Get "x").handle ((Command.Set "x" 0 4 "v3").handle [] 3).2 8).1 = "NOT FOUND" :=
  ⟨(get_lazy_expiry_semantics [("x", (5, "val"))] "x" 5 "val" 3).2.1 (by decide)
      (Or.inr (by decide)),
   (get_lazy_expiry_semantics [("x", (5, "val"))] "x" 5 "val" 9).2.2.1 (by decide)
      (by decide) (by decide),
   (get_lazy_expiry_semantics [] "x" 0 "" 3).2.2.2.1 0 "v2" 100,
   (get_lazy_expiry_semantics [] "x" 0 "" 3).2.2.2.2 0 "v3" 4 8 (by decide) (by decide)⟩

/-- Claim C8: a well-formed `set` always replies STORED, and a `get` of
the same key before expiry (with no intervening operation) returns
exactly the stored value. -/
theorem set_get_roundtrip :
    ∀ (st : Store) (k : String) (f t : Nat) (v : String) (now later : Nat),
      ((Command.Set k f t v).handle st now).1 = "STORED"
    ∧ (t = 0 ∨ later ≤ now + t →
        ((Command.Get k).handle ((Command.Set k f t v).handle st now).2 later).1 = v) := by
  intro st k f t v now later
  refine ⟨rfl, ?_⟩
  intro hcond
  by_cases ht : t = 0
  · simp [Command.handle, ht, hmGet_hmInsert_self]
  · have h : later ≤ now + t := by omega
    simp only [Command.handle, if_pos ht, hmGet_hmInsert_self]
    rw [if_pos (by omega : now + t ≠ 0), if_pos (by omega : now + t ≥ later)]

/-- Witness for C8: storing "hello" under "k" at time 10 with exptime 7
and reading it back at time 15. -/
theorem set_get_roundtrip_witness :
    ((Command.Set "k" 0 7 "hello").handle [] 10).1 = "STORED"
    ∧ ((Command.Get "k").handle ((Command.Set "k" 0 7 "hello").handle [] 10).2 15).1 = "hello" :=
  ⟨(set_get_roundtrip [] "k" 0 7 "hello" 10 15).1,
   (set_get_roundtrip [] "k" 0 7 "hello" 10 15).2 (Or.inr (by decide))⟩

/-- Claim C9: routing is pure and deterministic — the shard index is
`murmur3_32(key, 0) % cluster.len()`, two computations for the same key
and shard list agree, and two client instances built from the same shard
list agree on every key's route. -/
theorem route_deterministic :
    ∀ (L : List (String × Nat)) (key : List Nat),
      (ClusterClient.new L).get_stream_index key = (ClusterClient.new L).get_stream_index key
    ∧ (∀ c1 c2 : ClusterClient, c1 = ClusterClient.new L → c2 = ClusterClient.new L →
        c1.get_stream_index key = c2.get_stream_index key)
    ∧ (0 < L.length →
        (ClusterClient.new L).get_stream_index key = some (murmur3_32 key 0 % L.length)) := by
  intro L key
  refine ⟨rfl, ?_, ?_⟩
  · intro c1 c2 h1 h2
    rw [h1, h2]
  · intro hpos
    exact get_stream_index_of_ne_zero L key (by omega)

/-- Witness for C9: two clients over the one-shard list agree on the
route of key "a", which equals the murmur3 hash modulo the shard count. -/
theorem route_deterministic_witness :
    (ClusterClient.new [("a", 1)]).get_stream_index [97]
      = (ClusterClient.new [("a", 1)]).get_stream_index [97]
    ∧ (ClusterClient.new [("a", 1)]).get_stream_index [97] = some (murmur3_32 [97] 0 % 1) :=
  ⟨(route_deterministic [("a", 1)] [97]).2.1 (ClusterClient.new [("a", 1)])
      (ClusterClient.new [("a", 1)]) rfl rfl,
   (route_deterministic [("a", 1)] [97]).2.2 (by decide)⟩

/-- Claim C10: `ClusterClient::new` allocates exactly 3 connection slots
regardless of the cluster list, every slot access is in bounds for
cluster lists of length at most 3, and for every longer cluster list some
key routes to a slot index at least 3 — past the end of the slot vector.
The existence part is witnessed by the keys `"a"` and `"c"` (bytes `[97]`
and `[99]`): for any modulus `n > 3` under which both hashes reduce below
3, `n` would divide one number from each of two triples whose nine
pairwise gcds are all at most 3. -/
theorem streams_fixed_three_slots :
    (∀ L, (ClusterClient.new L).streams.length = 3)
    ∧ (∀ (L : List (String × Nat)) (key : List Nat) (i : Nat),
        L.length ≤ 3 → (ClusterClient.new L).get_stream_index key = some i → i < 3)
    ∧ (∀ L : List (String × Nat), 3 < L.length →
        ∃ (key : List Nat) (i : Nat),
          (ClusterClient.new L).get_stream_index key = some i ∧ 3 ≤ i) := by
  refine ⟨fun L => rfl, ?_, ?_⟩
  · intro L key i hle hidx
    by_cases h0 : L.length = 0
    · simp only [ClusterClient.get_stream_index, ClusterClient.new] at hidx
      rw [if_pos h0] at hidx
      exact absurd hidx (by simp)
    · rw [get_stream_index_of_ne_zero L key h0, Option.some.injEq] at hidx
      have hlt := Nat.mod_lt (murmur3_32 key 0) (Nat.pos_of_ne_zero h0)
      omega
  · intro L hL
    have h0 : ¬ L.length = 0 := by omega
    by_cases hA : 3 ≤ murmur3_32 [97] 0 % L.length
    · exact ⟨[97], murmur3_32 [97] 0 % L.length, get_stream_index_of_ne_zero L [97] h0, hA⟩
    · by_cases hC : 3 ≤ murmur3_32 [99] 0 % L.length
      · exact ⟨[99], murmur3_32 [99] 0 % L.length, get_stream_index_of_ne_zero L [99] h0, hC⟩
      · exfalso
        have e1 : murmur3_32 [97] 0 = 1009084850 := by decide
        have e2 : murmur3_32 [99] 0 = 3778205279 := by decide
        rw [e1] at hA
        rw [e2] at hC
        have d1 : L.length ∣ 1009084850 - 1009084850 % L.length := Nat.dvd_sub_mod _
        have d2 : L.length ∣ 3778205279 - 3778205279 % L.length := Nat.dvd_sub_mod _
        have hr1 : 1009084850 % L.length = 0 ∨ 1009084850 % L.length = 1 ∨
            1009084850 % L.length = 2 := by omega
        have hr2 : 3778205279 % L.length = 0 ∨ 3778205279 % L.length = 1 ∨
            3778205279 % L.length = 2 := by omega
        rcases hr1 with h1 | h1 | h1 <;> rcases hr2 with h2 | h2 | h2 <;>
          rw [h1] at d1 <;> rw [h2] at d2 <;> norm_num at d1 d2 <;>
          exact gcd_bound_no_common_divisor hL (by norm_num) d1 d2 (by norm_num)

/-- Witness for C10: a length-2 cluster routes key "a" to slot 0 (in
bounds), and the length-4 cluster admits a key routed past slot 2. -/
theorem streams_fixed_three_slots_witness :
    (ClusterClient.new [("a", 1)]).streams.length = 3
    ∧ (0 : Nat) < 3
    ∧ (∃ (key : List Nat) (i : Nat),
        (ClusterClient.new [("a", 1), ("b", 2), ("c", 3), ("d", 4)]).get_stream_index key
          = some i ∧ 3 ≤ i) :=
  ⟨streams_fixed_three_slots.1 [("a", 1)],
   streams_fixed_three_slots.2.1 [("a", 1), ("b", 2)] [97] 0 (by decide) (by decide),
   streams_fixed_three_slots.2.2 [("a", 1), ("b", 2), ("c", 3), ("d", 4)] (by decide)⟩

end Atlas
